import Mathlib

/-!
# Verification of the statistics pipeline of `build.py`

Shallow embedding of the metrics pipeline in `src/build.py`:
`fetch_daily_closes` (the date alignment on line 44), `compute_metrics`
(lines 48-72), `build_dashboard_html` (the data it inlines) and `main`
(lines 155-169).

Prices are modelled as exact rationals (`ℚ`); the transcendental parts of
the pipeline (`np.log`, `np.exp`, `sqrt`) live in `ℝ`.  A pandas column is a
`List ℚ`; a price table is column-major: a list of equally long columns.
Python exceptions (`RuntimeError`, the `IndexError` from `.iloc[0]` on an
empty frame) are modelled with `Except String`; the float `NaN` produced by
`pandas.Series.std()` on fewer than two observations is modelled as `none`
in an `Option ℝ` result.
-/

namespace Big8

/-- Line 57, `rets = np.log(px_df / px_df.shift(1)).dropna()`, for one
ticker column.  Row `i` of the result is `log (p (i+1) / p i)`; the first
price row contributes no return.  Under the price-table invariant that
every price is positive (the aligner drops NaN cells and Yahoo prices are
positive), `dropna` removes exactly the first row, which is what this
recursion implements. -/
noncomputable def logReturns : List ℚ → List ℝ
  | a :: b :: rest => Real.log ((b : ℝ) / (a : ℝ)) :: logReturns (b :: rest)
  | _ => []

/-- Inclusive running sums, `Series.cumsum`. -/
def cumsumFrom (acc : ℝ) : List ℝ → List ℝ
  | [] => []
  | x :: xs => (acc + x) :: cumsumFrom (acc + x) xs

/-- `rets.cumsum()`: entry `i` is the sum of entries `0..i`. -/
def cumsum (xs : List ℝ) : List ℝ := cumsumFrom 0 xs

/-- Line 60, `cum_df = (rets.cumsum()).apply(np.exp) * 100.0`, one column. -/
noncomputable def cumIndex (p : List ℚ) : List ℝ :=
  (cumsum (logReturns p)).map (fun s => Real.exp s * 100)

/-- Line 63, `window = min(252, len(rets))`.  `len(rets) = N - 1` (see
`logReturns_length`), so this is `min 252 (N - 1)` with `ℕ` truncated
subtraction covering the degenerate `N = 0` frame. -/
def window (p : List ℚ) : ℕ := min 252 (p.length - 1)

/-- `DataFrame.tail(n)` / `Series.tail(n)`: the last `n` rows. -/
def tailN {α : Type} (xs : List α) (n : ℕ) : List α := xs.drop (xs.length - n)

/-- `.iloc[0]`: first row of a frame, raising `IndexError` when empty. -/
def iloc0 {α : Type} (xs : List α) : Except String α :=
  match xs with
  | [] => Except.error "IndexError: single positional indexer is out-of-bounds"
  | x :: _ => Except.ok x

/-- Line 64, `rets_1y = rets.tail(window)`, one column. -/
noncomputable def rets_1y (p : List ℚ) : List ℝ := tailN (logReturns p) (window p)

/-- Line 67, `total_return_1y = (px_df.tail(1) / px_df.tail(window).iloc[0] - 1.0).iloc[0]`,
for one ticker column: last price over the first price of the last `window`
price rows, minus one.  Both `.iloc[0]` calls can raise `IndexError`; the
base one fires first (it is evaluated before the division). -/
def totalReturn (p : List ℚ) : Except String ℚ := do
  let base ← iloc0 (tailN p (window p))
  let lastRow ← iloc0 (tailN p 1)
  pure (lastRow / base - 1)

/-- `pandas.Series.std()` (default `ddof = 1`): the sample standard
deviation, `NaN` (here `none`) when fewer than two observations exist. -/
noncomputable def pandasStd (xs : List ℝ) : Option ℝ :=
  if xs.length < 2 then none
  else some (Real.sqrt
    ((xs.map (fun x => (x - xs.sum / (xs.length : ℝ)) ^ 2)).sum
      / ((xs.length : ℝ) - 1)))

/-- Line 70, `ann_vol_1y = rets_1y.std() * math.sqrt(252)`, one column.
`NaN * sqrt 252` is `NaN`, hence the `Option.map`. -/
noncomputable def annVol (p : List ℚ) : Option ℝ :=
  (pandasStd (rets_1y p)).map (fun s => s * Real.sqrt 252)

/-- The per-column content of `compute_metrics` (lines 48-72): cumulative
index, trailing total return, annualized volatility.  The only exception
the body can raise is the `IndexError` inside the total-return line, which
aborts the whole call. -/
noncomputable def compute_metrics (p : List ℚ) :
    Except String (List ℝ × ℚ × Option ℝ) :=
  (totalReturn p).map (fun tr => (cumIndex p, tr, annVol p))

theorem logReturns_length (p : List ℚ) : (logReturns p).length = p.length - 1 := by
  induction p with
  | nil => simp [logReturns]
  | cons a rest ih =>
    cases rest with
    | nil => simp [logReturns]
    | cons b r =>
      simp only [logReturns, List.length_cons] at ih ⊢
      omega

theorem tailN_length {α : Type} (xs : List α) (n : ℕ) :
    (tailN xs n).length = min n xs.length := by
  simp [tailN]
  omega

/-- Check the embedding on the spec's doubling series. -/
theorem totalReturn_doubling : totalReturn [100, 200, 400] = Except.ok 1 := by
  have hw : window [100, 200, 400] = 2 := by simp [window]
  simp only [totalReturn, hw, tailN, iloc0]
  norm_num [List.drop, bind, Except.bind, pure, Except.pure]

theorem head?_drop_getD {α : Type} (l : List α) (n : ℕ) (d : α) (h : n < l.length) :
    (l.drop n).head? = some (l.getD n d) := by
  induction l generalizing n with
  | nil => simp at h
  | cons x xs ih =>
    cases n with
    | zero => simp [List.getD]
    | succ m =>
      simp only [List.drop_succ_cons, List.getD_cons_succ]
      exact ih m (by simpa using Nat.lt_of_succ_lt_succ h)

theorem iloc0_of_head? {α : Type} (xs : List α) (a : α) (h : xs.head? = some a) :
    iloc0 xs = Except.ok a := by
  cases xs with
  | nil => simp at h
  | cons x l =>
    simp only [List.head?_cons, Option.some.injEq] at h
    simp [iloc0, h]

theorem window_pos (p : List ℚ) (h2 : 2 ≤ p.length) : 1 ≤ window p := by
  simp only [window]
  omega

theorem window_le_pred (p : List ℚ) : window p ≤ p.length - 1 := by
  simp [window]

/-- The base of the trailing total return: `px_df.tail(window).iloc[0]` is
the price at row `N - window` (0-based), i.e. `window - 1` rows before the
last row. -/
theorem totalReturn_eq (p : List ℚ) (h2 : 2 ≤ p.length) :
    totalReturn p =
      Except.ok (p.getD (p.length - 1) 0 / p.getD (p.length - window p) 0 - 1) := by
  have hw1 : 1 ≤ window p := window_pos p h2
  have hwle : window p ≤ p.length - 1 := window_le_pred p
  have hbase : iloc0 (tailN p (window p)) =
      Except.ok (p.getD (p.length - window p) 0) := by
    apply iloc0_of_head?
    simp only [tailN]
    exact head?_drop_getD p _ 0 (by omega)
  have hlast : iloc0 (tailN p 1) = Except.ok (p.getD (p.length - 1) 0) := by
    apply iloc0_of_head?
    simp only [tailN]
    exact head?_drop_getD p _ 0 (by omega)
  simp [totalReturn, hbase, hlast, bind, Except.bind, pure, Except.pure]

/-- Formula of the spec's Operation 4, taken at its words:
`totalReturn = price[last] / price[last - window] - 1`, the base price
being the one exactly `window` rows before the last row.  (Defined from
the spec sentence, to be compared against `totalReturn`, which embeds the
code.) -/
def totalReturn_specFormula (p : List ℚ) : Option ℚ :=
  if 2 ≤ p.length then
    some (p.getD (p.length - 1) 0 / p.getD (p.length - 1 - window p) 0 - 1)
  else none

/-- C1 counterexample: on the dense table `[100, 200, 400]` (N = 3,
window = 2) the code returns `400/200 - 1 = 1`, while the claimed formula
`price[last] / price[last - window] - 1` gives `400/100 - 1 = 3`.  The
claim as stated is therefore false. -/
theorem C1_counterexample :
    totalReturn [100, 200, 400] = Except.ok 1 ∧
    totalReturn_specFormula [100, 200, 400] = some 3 ∧
    (3 : ℚ) ≠ 1 := by
  refine ⟨totalReturn_doubling, ?_, by norm_num⟩
  have hw : window [100, 200, 400] = 2 := by simp [window]
  simp only [totalReturn_specFormula, hw]
  norm_num [List.getD]

/-- C1 (amended): for every dense price table with `N ≥ 2` rows and
`window = min(252, N-1)`, the trailing total return is
`price[last] / price[last - window + 1] - 1`: the base price is the first
of the last `window` price rows, i.e. row `N - window`, one row later than
the claimed `price[last - window]`. -/
theorem C1_total_return_base_row (p : List ℚ) (h2 : 2 ≤ p.length) :
    totalReturn p =
      Except.ok (p.getD (p.length - 1) 0 / p.getD (p.length - window p) 0 - 1) :=
  totalReturn_eq p h2

/-- C1 witness: the amended statement instantiated at `[100, 200, 400]`. -/
theorem C1_total_return_base_row_witness :
    2 ≤ ([100, 200, 400] : List ℚ).length ∧
    totalReturn [100, 200, 400] =
      Except.ok (([100, 200, 400] : List ℚ).getD 2 0 /
        ([100, 200, 400] : List ℚ).getD (3 - window [100, 200, 400]) 0 - 1) :=
  ⟨by decide, C1_total_return_base_row [100, 200, 400] (by decide)⟩

/-- C2: for the price series `[100, 200, 400]` (N = 3, window = 2), the
trailing total return produced by `compute_metrics` is exactly `1.00`,
i.e. `(400 / 200) - 1`. -/
theorem C2_doubling_total_return :
    ∃ cum vol, compute_metrics [100, 200, 400] = Except.ok (cum, 1, vol) := by
  refine ⟨cumIndex [100, 200, 400], annVol [100, 200, 400], ?_⟩
  simp [compute_metrics, totalReturn_doubling, Except.map]

theorem logReturns_getD (p : List ℚ) (k : ℕ) (h : k + 1 < p.length) :
    (logReturns p).getD k 0 =
      Real.log ((p.getD (k + 1) 0 : ℚ) / (p.getD k 0 : ℚ)) := by
  induction p generalizing k with
  | nil => simp at h
  | cons a rest ih =>
    cases rest with
    | nil => simp at h
    | cons b r =>
      cases k with
      | zero => simp [logReturns, List.getD]
      | succ m =>
        simp only [logReturns, List.getD_cons_succ]
        exact ih m (by simpa using Nat.lt_of_succ_lt_succ h)

theorem logReturns_getElem? (p : List ℚ) (k : ℕ) (h : k + 1 < p.length) :
    (logReturns p)[k]? =
      some (Real.log ((p.getD (k + 1) 0 : ℚ) / (p.getD k 0 : ℚ))) := by
  have hk : k < (logReturns p).length := by
    rw [logReturns_length]; omega
  rw [List.getElem?_eq_getElem hk, ← List.getD_eq_getElem _ 0 hk,
    logReturns_getD p k h]

theorem cumsumFrom_length (acc : ℝ) (xs : List ℝ) :
    (cumsumFrom acc xs).length = xs.length := by
  induction xs generalizing acc with
  | nil => simp [cumsumFrom]
  | cons x l ih => simp [cumsumFrom, ih]

theorem cumsumFrom_getD (acc : ℝ) (xs : List ℝ) (i : ℕ) (h : i < xs.length) :
    (cumsumFrom acc xs).getD i 0 = acc + (xs.take (i + 1)).sum := by
  induction xs generalizing acc i with
  | nil => simp at h
  | cons x l ih =>
    cases i with
    | zero => simp [cumsumFrom, List.getD]
    | succ m =>
      simp only [cumsumFrom, List.getD_cons_succ, List.take_succ_cons,
        List.sum_cons]
      rw [ih (acc + x) m (by simpa using Nat.lt_of_succ_lt_succ h)]
      try ring

theorem cumsum_getD (xs : List ℝ) (i : ℕ) (h : i < xs.length) :
    (cumsum xs).getD i 0 = (xs.take (i + 1)).sum := by
  rw [cumsum, cumsumFrom_getD 0 xs i h, zero_add]

theorem getD_pos (p : List ℚ) (hpos : ∀ x ∈ p, 0 < x) (k : ℕ)
    (h : k < p.length) : 0 < p.getD k 0 := by
  rw [List.getD_eq_getElem _ 0 h]
  exact hpos _ (List.getElem_mem h)

/-- Telescoping: the sum of the first `i+1` log returns is the log of the
growth from price row 0 to price row `i+1`. -/
theorem sum_take_logReturns (p : List ℚ) (hpos : ∀ x ∈ p, 0 < x) (i : ℕ)
    (hi : i + 1 < p.length) :
    ((logReturns p).take (i + 1)).sum =
      Real.log ((p.getD (i + 1) 0 : ℚ) / (p.getD 0 0 : ℚ)) := by
  induction i with
  | zero =>
    have h0 : 0 < (logReturns p).length := by rw [logReturns_length]; omega
    rw [List.sum_take_succ _ 0 h0, List.take_zero, List.sum_nil, zero_add,
      ← List.getD_eq_getElem _ 0 h0, logReturns_getD p 0 hi]
  | succ m ih =>
    have hm : m + 1 < (logReturns p).length := by rw [logReturns_length]; omega
    have hplt : m + 1 + 1 < p.length := hi
    have h0 : (0 : ℚ) < p.getD 0 0 := getD_pos p hpos 0 (by omega)
    have h1 : (0 : ℚ) < p.getD (m + 1) 0 := getD_pos p hpos (m + 1) (by omega)
    have h2 : (0 : ℚ) < p.getD (m + 1 + 1) 0 := getD_pos p hpos (m + 1 + 1) (by omega)
    rw [List.sum_take_succ _ (m + 1) hm, ih (by omega),
      ← List.getD_eq_getElem _ 0 hm, logReturns_getD p (m + 1) hplt,
      ← Real.log_mul (by positivity) (by positivity)]
    congr 1
    set a : ℝ := ((p.getD 0 0 : ℚ) : ℝ) with ha
    set b : ℝ := ((p.getD (m + 1) 0 : ℚ) : ℝ) with hb
    set c : ℝ := ((p.getD (m + 1 + 1) 0 : ℚ) : ℝ) with hc
    have ha0 : a ≠ 0 := by rw [ha]; positivity
    have hb0 : b ≠ 0 := by rw [hb]; positivity
    field_simp
    ring

/-- C3: for every strictly positive dense price table with `N ≥ 2` rows,
the cumulative index at return-row `i` equals `100 * exp` of the sum of
the first `i+1` log returns, which equals `100 * price[i+1] / price[0]`:
the compounded growth of the price column rebased to 100 just before the
first return. -/
theorem C3_cumulative_index (p : List ℚ) (hpos : ∀ x ∈ p, 0 < x)
    (h2 : 2 ≤ p.length) (i : ℕ) (hi : i < p.length - 1) :
    (cumIndex p).getD i 0 =
      100 * Real.exp (((logReturns p).take (i + 1)).sum) ∧
    (cumIndex p).getD i 0 =
      100 * ((p.getD (i + 1) 0 : ℚ) / (p.getD 0 0 : ℚ)) := by
  have hlen : i < (cumsum (logReturns p)).length := by
    rw [cumsum, cumsumFrom_length, logReturns_length]; omega
  have hmap : (cumIndex p).getD i 0 =
      Real.exp ((cumsum (logReturns p)).getD i 0) * 100 := by
    rw [cumIndex, List.getD_eq_getElem _ 0 (by simpa using hlen),
      List.getElem_map, List.getD_eq_getElem _ 0 hlen]
  have hsum : (cumsum (logReturns p)).getD i 0 =
      ((logReturns p).take (i + 1)).sum := by
    apply cumsum_getD
    rw [logReturns_length]; omega
  constructor
  · rw [hmap, hsum]; ring
  · rw [hmap, hsum, sum_take_logReturns p hpos i (by omega)]
    have h0 : (0 : ℚ) < p.getD 0 0 := getD_pos p hpos 0 (by omega)
    have h1 : (0 : ℚ) < p.getD (i + 1) 0 := getD_pos p hpos (i + 1) (by omega)
    rw [Real.exp_log (by positivity)]
    ring

/-- C3 witness: the theorem at `p = [1, 2, 4]`, `i = 1`. -/
theorem C3_cumulative_index_witness :
    ((∀ x ∈ ([1, 2, 4] : List ℚ), 0 < x) ∧ 2 ≤ ([1, 2, 4] : List ℚ).length ∧
      1 < ([1, 2, 4] : List ℚ).length - 1) ∧
    ((cumIndex [1, 2, 4]).getD 1 0 =
      100 * Real.exp (((logReturns [1, 2, 4]).take 2).sum) ∧
    (cumIndex [1, 2, 4]).getD 1 0 =
      100 * ((([1, 2, 4] : List ℚ).getD 2 0 : ℚ) /
        (([1, 2, 4] : List ℚ).getD 0 0 : ℚ))) :=
  ⟨⟨by decide, by decide, by decide⟩,
    C3_cumulative_index [1, 2, 4] (by decide) (by decide) 1 (by decide)⟩

/-- C4: for every dense, strictly positive price table with `N ≥ 2` rows
and `K` ticker columns, the log-return table has exactly `K` columns of
exactly `N - 1` rows each, every entry is present, and the entry at
return-row `i` of a column equals `ln(price[i+1] / price[i])` — price
row 0 contributes no return. -/
theorem C4_return_table_shape (cols : List (List ℚ)) (N : ℕ) (h2 : 2 ≤ N)
    (hlen : ∀ c ∈ cols, c.length = N) (hpos : ∀ c ∈ cols, ∀ x ∈ c, 0 < x) :
    (cols.map logReturns).length = cols.length ∧
    (∀ c ∈ cols, (logReturns c).length = N - 1) ∧
    (∀ c ∈ cols, ∀ i, i < N - 1 →
      (logReturns c)[i]? =
        some (Real.log ((c.getD (i + 1) 0 : ℚ) / (c.getD i 0 : ℚ)))) := by
  refine ⟨List.length_map _ _, ?_, ?_⟩
  · intro c hc
    rw [logReturns_length, hlen c hc]
  · intro c hc i hi
    exact logReturns_getElem? c i (by rw [hlen c hc]; omega)

/-- C4 witness: the theorem at the 2-column, 2-row table `[[1, 2], [2, 4]]`. -/
theorem C4_return_table_shape_witness :
    ((2 : ℕ) ≤ 2 ∧ (∀ c ∈ ([[1, 2], [2, 4]] : List (List ℚ)), c.length = 2) ∧
      (∀ c ∈ ([[1, 2], [2, 4]] : List (List ℚ)), ∀ x ∈ c, 0 < x)) ∧
    (((([[1, 2], [2, 4]] : List (List ℚ)).map logReturns).length =
        ([[1, 2], [2, 4]] : List (List ℚ)).length) ∧
    (∀ c ∈ ([[1, 2], [2, 4]] : List (List ℚ)), (logReturns c).length = 2 - 1) ∧
    (∀ c ∈ ([[1, 2], [2, 4]] : List (List ℚ)), ∀ i, i < 2 - 1 →
      (logReturns c)[i]? =
        some (Real.log ((c.getD (i + 1) 0 : ℚ) / (c.getD i 0 : ℚ))))) :=
  ⟨⟨by decide, by decide, by decide⟩,
    C4_return_table_shape [[1, 2], [2, 4]] 2 (by decide) (by decide) (by decide)⟩

theorem rets_1y_length (p : List ℚ) : (rets_1y p).length = window p := by
  rw [rets_1y, tailN_length, logReturns_length]
  simp only [window]
  omega

/-- Modelled from the spec's words (Operation 5): the sample standard
deviation — squared deviations from the mean, summed, divided by
`count - 1`, square-rooted.  (To be compared with `pandasStd`, which
embeds `pandas.Series.std()`.) -/
noncomputable def sampleStd (xs : List ℝ) : ℝ :=
  Real.sqrt ((xs.map (fun x => (x - xs.sum / (xs.length : ℝ)) ^ 2)).sum
    / ((xs.length : ℝ) - 1))

/-- C5: for every dense price table with `N ≥ 3` rows, the annualized
volatility is the sample standard deviation (denominator `window - 1`,
not `window`) of the last `window = min(252, N-1)` daily log returns,
times `sqrt 252`; with `N ≥ 3` the sample has at least two observations,
so no `NaN` arises. -/
theorem C5_annualized_vol (p : List ℚ) (h3 : 3 ≤ p.length) :
    (rets_1y p).length = window p ∧ 2 ≤ window p ∧
    annVol p = some (sampleStd (rets_1y p) * Real.sqrt 252) := by
  have hlen : (rets_1y p).length = window p := rets_1y_length p
  have hw2 : 2 ≤ window p := by
    simp only [window]
    omega
  refine ⟨hlen, hw2, ?_⟩
  rw [annVol, pandasStd, if_neg (by omega), sampleStd, Option.map]

/-- C5 witness: the theorem at `p = [1, 2, 4]` (N = 3, window = 2). -/
theorem C5_annualized_vol_witness :
    3 ≤ ([1, 2, 4] : List ℚ).length ∧
    ((rets_1y [1, 2, 4]).length = window [1, 2, 4] ∧
      2 ≤ window [1, 2, 4] ∧
      annVol [1, 2, 4] = some (sampleStd (rets_1y [1, 2, 4]) * Real.sqrt 252)) :=
  ⟨by decide, C5_annualized_vol [1, 2, 4] (by decide)⟩

/-- C6: for every dense price table with `N ≥ 2` rows, the trailing window
is `min(252, N-1)` return rows — `min 252 (len rets)` in the code's terms —
the volatility sample `rets_1y` is exactly the last `window` rows of the
return table, and the metrics computation succeeds without error even when
fewer than 252 returns exist (the window simply shrinks). -/
theorem C6_trailing_window (p : List ℚ) (h2 : 2 ≤ p.length) :
    window p = min 252 (logReturns p).length ∧
    rets_1y p = tailN (logReturns p) (window p) ∧
    (rets_1y p).length = window p ∧
    1 ≤ window p ∧
    (∃ cum tr vol, compute_metrics p = Except.ok (cum, tr, vol)) := by
  refine ⟨by rw [logReturns_length, window], rfl, rets_1y_length p,
    window_pos p h2, ?_⟩
  exact ⟨cumIndex p, p.getD (p.length - 1) 0 / p.getD (p.length - window p) 0 - 1,
    annVol p, by rw [compute_metrics, totalReturn_eq p h2, Except.map]⟩

/-- C6 witness: the theorem at `p = [1, 2]` (N = 2, window = 1 < 252). -/
theorem C6_trailing_window_witness :
    2 ≤ ([1, 2] : List ℚ).length ∧
    (window [1, 2] = min 252 (logReturns [1, 2]).length ∧
      rets_1y [1, 2] = tailN (logReturns [1, 2]) (window [1, 2]) ∧
      (rets_1y [1, 2]).length = window [1, 2] ∧
      1 ≤ window [1, 2] ∧
      (∃ cum tr vol, compute_metrics [1, 2] = Except.ok (cum, tr, vol))) :=
  ⟨by decide, C6_trailing_window [1, 2] (by decide)⟩

/-! ## The aligner (line 44, `pd.DataFrame(closes).dropna(how="any")`) -/

/-- The dates on which one ticker's series has a price. -/
def seriesDates (s : List (ℕ × ℚ)) : List ℕ := s.map Prod.fst

/-- Line 44: assembling the per-ticker series into one frame indexes it by
the union of all date sets, leaving `NaN` where a ticker lacks a date, and
`dropna(how="any")` then removes every row with any missing cell.  What
survives is exactly the dates present in every series, in increasing date
order — realized here by filtering the first series' (increasing) dates by
membership in all the others. -/
def commonDates (series : List (List (ℕ × ℚ))) : List ℕ :=
  match series with
  | [] => []
  | s :: rest =>
      (seriesDates s).filter
        (fun d => rest.all (fun s2 => (seriesDates s2).contains d))

/-- A ticker's price on a given date, when present. -/
def lookup (s : List (ℕ × ℚ)) (d : ℕ) : Option ℚ :=
  (s.find? (fun q => q.1 == d)).map Prod.snd

/-- The aligned frame `px`: one row per common date, one cell per ticker. -/
def alignTable (series : List (List (ℕ × ℚ))) : List (ℕ × List (Option ℚ)) :=
  (commonDates series).map (fun d => (d, series.map (fun s => lookup s d)))

theorem lookup_isSome (s : List (ℕ × ℚ)) (d : ℕ) (h : d ∈ seriesDates s) :
    (lookup s d).isSome = true := by
  induction s with
  | nil => simp [seriesDates] at h
  | cons q rest ih =>
    by_cases hq : q.1 = d
    · simp [lookup, List.find?, hq]
    · have hd : d ∈ seriesDates rest := by
        simp only [seriesDates, List.map_cons, List.mem_cons] at h
        exact h.resolve_left (fun he => hq he.symm)
      have := ih hd
      simp only [lookup, List.find?] at this ⊢
      have hbe : (q.1 == d) = false := by simpa using hq
      rw [hbe]
      exact this

theorem mem_commonDates (series : List (List (ℕ × ℚ))) (hne : series ≠ [])
    (d : ℕ) : d ∈ commonDates series ↔ ∀ s ∈ series, d ∈ seriesDates s := by
  cases series with
  | nil => exact absurd rfl hne
  | cons s rest =>
    simp only [commonDates, List.mem_filter, List.all_eq_true, List.mem_cons]
    constructor
    · rintro ⟨hs, hrest⟩ t ht
      rcases ht with rfl | ht
      · exact hs
      · simpa using hrest t ht
    · intro h
      exact ⟨h s (Or.inl rfl), fun t ht => by simpa using h t (Or.inr ht)⟩

/-- C7: the aligner keeps exactly the dates present in every ticker's
series (the intersection of the date sets), every cell of every surviving
row is present, and — the inputs' dates being strictly increasing — the
output rows are strictly increasing by date. -/
theorem C7_aligner (series : List (List (ℕ × ℚ))) (hne : series ≠ [])
    (hsorted : ∀ s ∈ series, (seriesDates s).Chain' (· < ·)) :
    (∀ d, d ∈ (alignTable series).map Prod.fst ↔
      ∀ s ∈ series, d ∈ seriesDates s) ∧
    (∀ row ∈ alignTable series, ∀ c ∈ row.2, c.isSome = true) ∧
    ((alignTable series).map Prod.fst).Chain' (· < ·) := by
  have hdates : (alignTable series).map Prod.fst = commonDates series := by
    simp [alignTable, List.map_map, Function.comp_def]
  refine ⟨?_, ?_, ?_⟩
  · intro d
    rw [hdates]
    exact mem_commonDates series hne d
  · intro row hrow c hc
    simp only [alignTable, List.mem_map] at hrow
    obtain ⟨d, hd, rfl⟩ := hrow
    simp only [List.mem_map] at hc
    obtain ⟨s, hs, rfl⟩ := hc
    exact lookup_isSome s d (((mem_commonDates series hne d).mp hd) s hs)
  · rw [hdates]
    cases series with
    | nil => exact absurd rfl hne
    | cons s rest =>
      have hs : (seriesDates s).Chain' (· < ·) := hsorted s (List.mem_cons_self s rest)
      rw [List.chain'_iff_pairwise] at hs ⊢
      exact List.Pairwise.sublist (List.filter_sublist _) hs

/-- C7 witness: ticker A on dates `{1, 2, 3}`, ticker B on dates
`{2, 3, 4}`; the aligned output holds exactly the dates `{2, 3}`. -/
theorem C7_aligner_witness :
    (([[(1, 10), (2, 11), (3, 12)], [(2, 20), (3, 21), (4, 22)]] :
        List (List (ℕ × ℚ))) ≠ [] ∧
      (∀ s ∈ ([[(1, 10), (2, 11), (3, 12)], [(2, 20), (3, 21), (4, 22)]] :
          List (List (ℕ × ℚ))), (seriesDates s).Chain' (· < ·)) ∧
      (alignTable [[(1, 10), (2, 11), (3, 12)], [(2, 20), (3, 21), (4, 22)]]).map
        Prod.fst = [2, 3]) ∧
    ((∀ d, d ∈ (alignTable [[(1, 10), (2, 11), (3, 12)],
        [(2, 20), (3, 21), (4, 22)]]).map Prod.fst ↔
      ∀ s ∈ ([[(1, 10), (2, 11), (3, 12)], [(2, 20), (3, 21), (4, 22)]] :
        List (List (ℕ × ℚ))), d ∈ seriesDates s) ∧
    (∀ row ∈ alignTable [[(1, 10), (2, 11), (3, 12)], [(2, 20), (3, 21), (4, 22)]],
      ∀ c ∈ row.2, c.isSome = true) ∧
    ((alignTable [[(1, 10), (2, 11), (3, 12)], [(2, 20), (3, 21), (4, 22)]]).map
      Prod.fst).Chain' (· < ·)) :=
  ⟨⟨by decide, by simp [seriesDates], by decide⟩,
    C7_aligner [[(1, 10), (2, 11), (3, 12)], [(2, 20), (3, 21), (4, 22)]]
      (by decide) (by simp [seriesDates])⟩

/-! ## The renderer and the `main` pipeline (lines 74-169) -/

/-- The data `build_dashboard_html` (lines 74-153) inlines into the HTML:
the cumulative-index chart series, the per-ticker total returns and the
per-ticker annualized volatilities of the summary table and bar chart.
The Python function is total: formatting a float `NaN` with `f"{v*100:.2f}%"`
yields the text `nan%` rather than raising, so a `none` volatility flows
into the document unchanged. -/
structure Dashboard where
  cum : List (List ℝ)
  totalReturns : List ℚ
  vols : List (Option ℝ)

/-- `build_dashboard_html` applied to the per-column metrics. -/
def buildDashboard (ms : List (List ℝ × ℚ × Option ℝ)) : Dashboard :=
  { cum := ms.map Prod.fst
    totalReturns := ms.map (fun m => m.2.1)
    vols := ms.map (fun m => m.2.2) }

/-- The ticker columns of a row-major dense frame with `K` columns. -/
def columnsOf (K : ℕ) (rows : List (List ℚ)) : List (List ℚ) :=
  (List.range K).map (fun k => rows.map (fun r => r.getD k 0))

/-- Lines 159-168 of `main`, from the aligned price frame `px` onward:
raise `RuntimeError` if the frame is empty, otherwise run
`compute_metrics` (whose `IndexError` propagates) and render the result.
The HTML file is written only on a successful (`Except.ok`) run. -/
noncomputable def runOnTable (K : ℕ) (rows : List (List ℚ)) :
    Except String Dashboard :=
  if rows.isEmpty then
    Except.error "RuntimeError: No price data downloaded. Check tickers or network."
  else
    ((columnsOf K rows).mapM compute_metrics).map buildDashboard

/-- The rows of the aligned frame, every cell being present. -/
def denseRows (px : List (ℕ × List (Option ℚ))) : List (List ℚ) :=
  px.map (fun r => r.2.map (fun c => c.getD 0))

/-- `main` (lines 155-169): fetch and align, then `runOnTable`. -/
noncomputable def main_run (series : List (List (ℕ × ℚ))) :
    Except String Dashboard :=
  runOnTable series.length (denseRows (alignTable series))

theorem compute_metrics_singleton (x : ℚ) :
    compute_metrics [x] =
      Except.error "IndexError: single positional indexer is out-of-bounds" := by
  have hw : window [x] = 0 := by simp [window]
  simp [compute_metrics, totalReturn, hw, tailN, iloc0, bind, Except.bind,
    Except.map]

/-- C8: a price table with fewer than two aligned rows never completes:
with zero rows the `px.empty` guard raises `RuntimeError`, and with one
row the return table is empty, `window = 0`, and `px_df.tail(0).iloc[0]`
raises `IndexError` — either way no dashboard is produced. -/
theorem C8_insufficient_data (K : ℕ) (rows : List (List ℚ)) (hK : 1 ≤ K)
    (hdense : ∀ r ∈ rows, r.length = K) (hN : rows.length < 2) :
    ∃ msg, runOnTable K rows = Except.error msg := by
  match rows, hN with
  | [], _ =>
    exact ⟨"RuntimeError: No price data downloaded. Check tickers or network.",
      by simp [runOnTable]⟩
  | [r], _ =>
    refine ⟨"IndexError: single positional indexer is out-of-bounds", ?_⟩
    rw [runOnTable, if_neg (by simp)]
    obtain ⟨K', rfl⟩ : ∃ K', K = K' + 1 := ⟨K - 1, by omega⟩
    simp only [columnsOf, List.range_succ_eq_map, List.map_cons, List.map_nil,
      List.mapM_cons, compute_metrics_singleton]
    rfl

/-- C8 witness: the theorem at the one-row, one-ticker table `[[100]]`. -/
theorem C8_insufficient_data_witness :
    ((1 : ℕ) ≤ 1 ∧ (∀ r ∈ ([[100]] : List (List ℚ)), r.length = 1) ∧
      ([[100]] : List (List ℚ)).length < 2) ∧
    (∃ msg, runOnTable 1 [[100]] = Except.error msg) :=
  ⟨⟨by decide, by decide, by decide⟩,
    C8_insufficient_data 1 [[100]] (by decide) (by decide) (by decide)⟩

/-- C9: when the tickers' date sets have empty intersection the aligned
frame has no rows, `px.empty` holds, and `main` raises `RuntimeError`
before rendering anything: no ticker is silently dropped and no empty
dashboard is written. -/
theorem C9_empty_intersection (series : List (List (ℕ × ℚ)))
    (hempty : commonDates series = []) :
    main_run series =
      Except.error "RuntimeError: No price data downloaded. Check tickers or network." := by
  rw [main_run, alignTable, hempty]
  simp [denseRows, runOnTable]

/-- C9 witness: two tickers with disjoint date sets. -/
theorem C9_empty_intersection_witness :
    commonDates [[(1, 100)], [(2, 100)]] = [] ∧
    main_run [[(1, 100)], [(2, 100)]] =
      Except.error "RuntimeError: No price data downloaded. Check tickers or network." :=
  ⟨by decide, C9_empty_intersection [[(1, 100)], [(2, 100)]] (by decide)⟩

theorem compute_metrics_pair (c : List ℚ) (hc : c.length = 2) :
    ∃ cum tr, compute_metrics c = Except.ok (cum, tr, none) := by
  have hvol : annVol c = none := by
    have hlen : (rets_1y c).length = 1 := by
      rw [rets_1y_length, window, hc]
      omega
    rw [annVol, pandasStd, if_pos (by omega)]
    rfl
  exact ⟨cumIndex c, c.getD (c.length - 1) 0 / c.getD (c.length - window c) 0 - 1,
    by rw [compute_metrics, totalReturn_eq c (by omega), Except.map, hvol]⟩

theorem mapM_compute_metrics_pairs (cols : List (List ℚ))
    (h : ∀ c ∈ cols, c.length = 2) :
    ∃ ms, cols.mapM compute_metrics = Except.ok ms ∧
      ms.map (fun m => m.2.2) = cols.map (fun _ => (none : Option ℝ)) := by
  induction cols with
  | nil => exact ⟨[], rfl, by simp⟩
  | cons c rest ih =>
    obtain ⟨cum, tr, hc⟩ := compute_metrics_pair c (h c (List.mem_cons_self c rest))
    obtain ⟨ms, hms, hvols⟩ := ih (fun d hd => h d (List.mem_cons_of_mem c hd))
    refine ⟨(cum, tr, none) :: ms, ?_, ?_⟩
    · rw [List.mapM_cons, hc, hms]
      rfl
    · simp [hvols]

/-- C10: on a dense table with exactly two rows (one return, window = 1)
`compute_metrics` succeeds, the sample standard deviation of the single
return is `NaN` (`ddof = 1` leaves a zero denominator), so every ticker's
annualized volatility is `NaN`, and that `NaN` flows into the rendered
dashboard instead of aborting the run. -/
theorem C10_two_rows_nan_vol (K : ℕ) (rows : List (List ℚ)) (hK : 1 ≤ K)
    (hN : rows.length = 2) (hdense : ∀ r ∈ rows, r.length = K) :
    ∃ d, runOnTable K rows = Except.ok d ∧ d.vols = List.replicate K none := by
  have hcols : ∀ c ∈ columnsOf K rows, c.length = 2 := by
    intro c hc
    simp only [columnsOf, List.mem_map] at hc
    obtain ⟨k, hk, rfl⟩ := hc
    simp [hN]
  obtain ⟨ms, hms, hvols⟩ := mapM_compute_metrics_pairs (columnsOf K rows) hcols
  have hne : rows ≠ [] := by
    intro h
    rw [h] at hN
    exact absurd hN (by decide)
  refine ⟨buildDashboard ms, ?_, ?_⟩
  · rw [runOnTable, if_neg (by simp [List.isEmpty_iff, hne]), hms, Except.map]
  · rw [buildDashboard]
    simp only [hvols, columnsOf, List.map_map, Function.comp_def]
    rw [List.map_const', List.length_range]

/-- C10 witness: the theorem at the one-ticker, two-row table `[[100], [200]]`. -/
theorem C10_two_rows_nan_vol_witness :
    ((1 : ℕ) ≤ 1 ∧ ([[100], [200]] : List (List ℚ)).length = 2 ∧
      (∀ r ∈ ([[100], [200]] : List (List ℚ)), r.length = 1)) ∧
    (∃ d, runOnTable 1 [[100], [200]] = Except.ok d ∧
      d.vols = List.replicate 1 none) :=
  ⟨⟨by decide, by decide, by decide⟩,
    C10_two_rows_nan_vol 1 [[100], [200]] (by decide) (by decide) (by decide)⟩

end Big8
